import Mathlib

/-!
Verification of the vector-algebra kernel, camera ray generation, sampling
distributions, and recursive integrator of the `remda` ray tracer
(src/src/prelude/vec3.rs and src/src/camera.rs).

The `f64` scalar type is modelled by the real numbers `ℝ`; claims about
IEEE special values (NaN, infinities) use an extended scalar type `F`
defined below.  Randomness is modelled by passing each random draw as an
explicit argument, constrained by the documented range of the source
distribution.
-/

namespace Remda

/-- Translated from `vec3.rs`: `pub struct Vec3 { pub x: f64, pub y: f64, pub z: f64 }`,
with `f64` modelled as `ℝ`. -/
structure Vec3 where
  x : ℝ
  y : ℝ
  z : ℝ

/-- Translated from `Vec3::new(x, y, z)`. -/
def Vec3.new (x y z : ℝ) : Vec3 := ⟨x, y, z⟩

/-- Translated from `impl Neg for &Vec3`: `Vec3::new(-self.x, -self.y, -self.z)`. -/
def Vec3.neg (v : Vec3) : Vec3 := Vec3.new (-v.x) (-v.y) (-v.z)

instance : Neg Vec3 := ⟨Vec3.neg⟩

/-- Translated from `impl Add for &Vec3`: componentwise addition. -/
def Vec3.add (a b : Vec3) : Vec3 := Vec3.new (a.x + b.x) (a.y + b.y) (a.z + b.z)

instance : Add Vec3 := ⟨Vec3.add⟩

/-- Translated from `impl Sub for &Vec3`: componentwise subtraction. -/
def Vec3.sub (a b : Vec3) : Vec3 := Vec3.new (a.x - b.x) (a.y - b.y) (a.z - b.z)

instance : Sub Vec3 := ⟨Vec3.sub⟩

/-- Translated from `impl Mul<f64> for &Vec3`:
`Vec3::new(self.x * rhs, self.y * rhs, self.z * rhs)`. -/
def Vec3.mulScalar (v : Vec3) (s : ℝ) : Vec3 := Vec3.new (v.x * s) (v.y * s) (v.z * s)

/-- Translated from `impl Div<f64> for &Vec3`: `self * (1.0 / rhs)` —
scalar division is multiplication by the reciprocal. -/
noncomputable def Vec3.divScalar (v : Vec3) (s : ℝ) : Vec3 := v.mulScalar (1 / s)

/-- Translated from `Vec3::length_squared`:
`self.z.mul_add(self.z, self.x.mul_add(self.x, self.y * self.y))`,
i.e. `z*z + (x*x + y*y)` (fused multiply-add is exact over `ℝ`). -/
def Vec3.length_squared (v : Vec3) : ℝ := v.z * v.z + (v.x * v.x + v.y * v.y)

/-- Translated from `Vec3::length`: `self.length_squared().sqrt()`. -/
noncomputable def Vec3.length (v : Vec3) : ℝ := Real.sqrt v.length_squared

/-- Translated from `Vec3::dot`:
`self.z.mul_add(rhs.z, self.x.mul_add(rhs.x, self.y * rhs.y))`. -/
def Vec3.dot (a b : Vec3) : ℝ := a.z * b.z + (a.x * b.x + a.y * b.y)

/-- Translated from `Vec3::cross`: the right-hand-rule formula
`(y1*z2 - z1*y2, z1*x2 - x1*z2, x1*y2 - y1*x2)`. -/
def Vec3.cross (a b : Vec3) : Vec3 :=
  Vec3.new (a.y * b.z - a.z * b.y) (a.z * b.x - a.x * b.z) (a.x * b.y - a.y * b.x)

/-- Translated from `Vec3::unit`: `self / self.length()`. -/
noncomputable def Vec3.unit (v : Vec3) : Vec3 := v.divScalar v.length

/-- Translated from `impl Index<usize> for Vec3`: axes 0/1/2 return the
`x`/`y`/`z` component; any other index panics, modelled as `none`. -/
def Vec3.index (v : Vec3) : ℕ → Option ℝ
  | 0 => some v.x
  | 1 => some v.y
  | 2 => some v.z
  | _ => none

/-- Translated from `impl IndexMut<usize> for Vec3`: axes 0/1/2 give a
mutable reference to the `x`/`y`/`z` component, modelled as the functional
update writing `val` into that component; any other index panics,
modelled as `none`. -/
def Vec3.index_mut (v : Vec3) (i : ℕ) (val : ℝ) : Option Vec3 :=
  match i with
  | 0 => some { v with x := val }
  | 1 => some { v with y := val }
  | 2 => some { v with z := val }
  | _ => none

/-- Translated from `Vec3::random_in_unit_box`: the three draws of
`Random::range(-1.0..1.0)` are passed explicitly as `r1`, `r2`, `r3`;
a real draw of `Random::range(-1.0..1.0)` lies in the half-open
interval `[-1, 1)`. -/
def Vec3.random_in_unit_box (r1 r2 r3 : ℝ) : Vec3 := Vec3.new r1 r2 r3

/-- Translated from `Vec3::random_in_unit_sphere`: the rejection loop
draws candidates from `random_in_unit_box` until `length_squared() < 1`.
The infinite candidate stream is passed as `cand` and the unbounded loop
is given explicit fuel; `none` models non-termination within the fuel. -/
noncomputable def sphere_rejection (cand : ℕ → Vec3) : ℕ → Option Vec3
  | 0 => none
  | fuel + 1 =>
    if (cand 0).length_squared < 1 then some (cand 0)
    else sphere_rejection (fun i => cand (i + 1)) fuel

/-- Translated from `Vec3::random_in_unit_hemisphere(dir)`: the vector `u`
sampled from `random_in_unit_sphere` is passed explicitly;
`if u.dot(dir) > 0.0 { u } else { -u }`. -/
noncomputable def Vec3.random_in_unit_hemisphere (u dir : Vec3) : Vec3 :=
  if 0 < u.dot dir then u else -u

/-- Translated from `Vec3::random_unit`: the draws `a` of
`Random::range(0.0..2*PI)` and `z` of `Random::range(-1.0..1.0)` are
passed explicitly; `r = (1 - z*z).sqrt()`;
returns `(r*cos a, r*sin a, z)`. -/
noncomputable def Vec3.random_unit (a z : ℝ) : Vec3 :=
  Vec3.new (Real.sqrt (1 - z * z) * Real.cos a) (Real.sqrt (1 - z * z) * Real.sin a) z

/-- Translated from `Vec3::random_unit_dir(dir)`: the draws `a`, `z` of the
underlying `random_unit` sample are passed explicitly;
`if u.dot(dir) > 0.0 { u } else { -u }`. -/
noncomputable def Vec3.random_unit_dir (a z : ℝ) (dir : Vec3) : Vec3 :=
  if 0 < (Vec3.random_unit a z).dot dir then Vec3.random_unit a z
  else -(Vec3.random_unit a z)

/-- Helper for C7: whatever the rejection loop returns satisfies the
acceptance test and is one of the candidates it drew. -/
theorem sphere_rejection_sound (fuel : ℕ) :
    ∀ (cand : ℕ → Vec3) (p : Vec3), sphere_rejection cand fuel = some p →
      p.length_squared < 1 ∧ ∃ i, p = cand i := by
  induction fuel with
  | zero => intro cand p h; simp [sphere_rejection] at h
  | succ n ih =>
    intro cand p h
    rw [sphere_rejection] at h
    by_cases hc : (cand 0).length_squared < 1
    · rw [if_pos hc] at h
      obtain rfl : cand 0 = p := Option.some.inj h
      exact ⟨hc, 0, rfl⟩
    · rw [if_neg hc] at h
      obtain ⟨hlt, i, hi⟩ := ih (fun i => cand (i + 1)) p h
      exact ⟨hlt, i + 1, hi⟩

/-- C6: the cross product is anticommutative — `cross(a, b)` is the
componentwise negation of `cross(b, a)` — and each component of
`cross(a, b)` is given by the right-hand-rule formula
`(y1*z2 - z1*y2, z1*x2 - x1*z2, x1*y2 - y1*x2)`. -/
theorem cross_anticomm (a b : Vec3) :
    a.cross b = -(b.cross a) ∧
    a.cross b = Vec3.new (a.y * b.z - a.z * b.y) (a.z * b.x - a.x * b.z)
      (a.x * b.y - a.y * b.x) := by
  refine ⟨?_, rfl⟩
  show a.cross b = (b.cross a).neg
  simp only [Vec3.cross, Vec3.neg, Vec3.new, Vec3.mk.injEq]
  refine ⟨by ring, by ring, by ring⟩

/-- C10: scalar division of a vector is implemented as scalar
multiplication by the reciprocal: `v / s` equals `v * (1.0 / s)`, with
each component computed as `x * (1/s)`. -/
theorem div_is_mul_recip (v : Vec3) (s : ℝ) :
    v.divScalar s = v.mulScalar (1 / s) ∧
    v.divScalar s = Vec3.new (v.x * (1 / s)) (v.y * (1 / s)) (v.z * (1 / s)) := ⟨rfl, rfl⟩

/-- C8: indexing a `Vec3` by axis 0, 1 or 2 returns the `x`, `y` or `z`
component respectively, and indexing by any index greater than 2 fails
fast (modelled as `none`) rather than returning a value, for both the
read and the mutable index operation. -/
theorem index_spec (v : Vec3) (val : ℝ) (i : ℕ) :
    v.index 0 = some v.x ∧ v.index 1 = some v.y ∧ v.index 2 = some v.z ∧
    v.index_mut 0 val = some { v with x := val } ∧
    v.index_mut 1 val = some { v with y := val } ∧
    v.index_mut 2 val = some { v with z := val } ∧
    (2 < i → v.index i = none ∧ v.index_mut i val = none) := by
  refine ⟨rfl, rfl, rfl, rfl, rfl, rfl, fun hi => ⟨?_, ?_⟩⟩
  · match i, hi with
    | n + 3, _ => rfl
  · match i, hi with
    | n + 3, _ => rfl

/-- Witness for C8 at `v = (1, 2, 3)`, `val = 7`, `i = 5`. -/
theorem index_spec_witness :
    (Vec3.new 1 2 3).index 5 = none ∧ (Vec3.new 1 2 3).index_mut 5 7 = none :=
  ⟨((index_spec (Vec3.new 1 2 3) 7 5).2.2.2.2.2.2 (by decide)).1,
   ((index_spec (Vec3.new 1 2 3) 7 5).2.2.2.2.2.2 (by decide)).2⟩

/-- C1 counterexample: at `u = (1/2, 0, 0)` (a legitimate unit-sphere
sample, `length_squared < 1`) and `dir = (0, 1, 0)` the dot product is
exactly zero, yet `random_in_unit_hemisphere` returns the flipped `-u`,
not `u`; likewise `random_unit_dir` at draws `a = 0`, `z = 0` (sample
`(1, 0, 0)`) against `dir = (0, 1, 0)` returns the flipped vector. -/
theorem hemisphere_tie_cex :
    (Vec3.new (1 / 2) 0 0).length_squared < 1 ∧
    (Vec3.new (1 / 2) 0 0).dot (Vec3.new 0 1 0) = 0 ∧
    Vec3.random_in_unit_hemisphere (Vec3.new (1 / 2) 0 0) (Vec3.new 0 1 0) ≠
      Vec3.new (1 / 2) 0 0 ∧
    (Vec3.random_unit 0 0).dot (Vec3.new 0 1 0) = 0 ∧
    Vec3.random_unit_dir 0 0 (Vec3.new 0 1 0) ≠ Vec3.random_unit 0 0 := by
  have hunit : Vec3.random_unit 0 0 = Vec3.new 1 0 0 := by
    simp [Vec3.random_unit, Vec3.new]
  refine ⟨by norm_num [Vec3.length_squared, Vec3.new], by norm_num [Vec3.dot, Vec3.new], ?_, ?_, ?_⟩
  · simp only [Vec3.random_in_unit_hemisphere, Vec3.dot, Vec3.new]
    norm_num [Neg.neg, Vec3.neg, Vec3.new, Vec3.mk.injEq]
  · rw [hunit]; norm_num [Vec3.dot, Vec3.new]
  · simp only [Vec3.random_unit_dir, hunit, Vec3.dot, Vec3.new]
    norm_num [Neg.neg, Vec3.neg, Vec3.new, Vec3.mk.injEq]

/-- C1 (amended): the hemisphere samplers `random_in_unit_hemisphere(dir)`
and `random_unit_dir(dir)` return the sampled vector `u` itself whenever
`dot(u, dir)` is strictly positive, and `-u` otherwise; in particular,
when `dot(u, dir)` is exactly zero the flipped vector `-u` is returned. -/
theorem hemisphere_flip (u dir : Vec3) (a z : ℝ) :
    (0 < u.dot dir → Vec3.random_in_unit_hemisphere u dir = u) ∧
    (u.dot dir ≤ 0 → Vec3.random_in_unit_hemisphere u dir = -u) ∧
    (0 < (Vec3.random_unit a z).dot dir →
      Vec3.random_unit_dir a z dir = Vec3.random_unit a z) ∧
    ((Vec3.random_unit a z).dot dir ≤ 0 →
      Vec3.random_unit_dir a z dir = -(Vec3.random_unit a z)) := by
  refine ⟨fun h => ?_, fun h => ?_, fun h => ?_, fun h => ?_⟩
  · rw [Vec3.random_in_unit_hemisphere, if_pos h]
  · rw [Vec3.random_in_unit_hemisphere, if_neg (not_lt.mpr h)]
  · rw [Vec3.random_unit_dir, if_pos h]
  · rw [Vec3.random_unit_dir, if_neg (not_lt.mpr h)]

/-- Witness for C1 (amended) at `u = (1, 0, 0)` with `dir = (1, 0, 0)`
(positive dot product) and `dir = (0, 1, 0)` (zero dot product), and at
draws `a = 0`, `z = 0` with the same two normals. -/
theorem hemisphere_flip_witness :
    Vec3.random_in_unit_hemisphere (Vec3.new 1 0 0) (Vec3.new 1 0 0) = Vec3.new 1 0 0 ∧
    Vec3.random_in_unit_hemisphere (Vec3.new 1 0 0) (Vec3.new 0 1 0) = -(Vec3.new 1 0 0) ∧
    Vec3.random_unit_dir 0 0 (Vec3.new 1 0 0) = Vec3.random_unit 0 0 ∧
    Vec3.random_unit_dir 0 0 (Vec3.new 0 1 0) = -(Vec3.random_unit 0 0) := by
  have hunit : Vec3.random_unit 0 0 = Vec3.new 1 0 0 := by
    simp [Vec3.random_unit, Vec3.new]
  exact ⟨(hemisphere_flip (Vec3.new 1 0 0) (Vec3.new 1 0 0) 0 0).1
      (by simp [Vec3.dot, Vec3.new]),
    (hemisphere_flip (Vec3.new 1 0 0) (Vec3.new 0 1 0) 0 0).2.1
      (by simp [Vec3.dot, Vec3.new]),
    (hemisphere_flip (Vec3.new 1 0 0) (Vec3.new 1 0 0) 0 0).2.2.1
      (by rw [hunit]; simp [Vec3.dot, Vec3.new]),
    (hemisphere_flip (Vec3.new 1 0 0) (Vec3.new 0 1 0) 0 0).2.2.2
      (by rw [hunit]; simp [Vec3.dot, Vec3.new])⟩

/-- C7: every vector the rejection sampler `random_in_unit_sphere`
returns satisfies `length_squared() < 1`, and it is one of the candidates
drawn from `random_in_unit_box`, whose three components each lie in
`[-1, 1)`. -/
theorem unit_sphere_spec (r1 r2 r3 : ℕ → ℝ) (fuel : ℕ) (p : Vec3)
    (hr : ∀ i, (-1 ≤ r1 i ∧ r1 i < 1) ∧ (-1 ≤ r2 i ∧ r2 i < 1) ∧ (-1 ≤ r3 i ∧ r3 i < 1))
    (h : sphere_rejection (fun i => Vec3.random_in_unit_box (r1 i) (r2 i) (r3 i)) fuel
      = some p) :
    p.length_squared < 1 ∧
    (∃ i, p = Vec3.random_in_unit_box (r1 i) (r2 i) (r3 i)) ∧
    (-1 ≤ p.x ∧ p.x < 1) ∧ (-1 ≤ p.y ∧ p.y < 1) ∧ (-1 ≤ p.z ∧ p.z < 1) := by
  obtain ⟨hlt, i, hi⟩ := sphere_rejection_sound fuel _ p h
  refine ⟨hlt, ⟨i, hi⟩, ?_, ?_, ?_⟩
  · rw [hi]; exact (hr i).1
  · rw [hi]; exact (hr i).2.1
  · rw [hi]; exact (hr i).2.2

/-- Witness for C7: the constant candidate stream drawing `(0, 0, 0)`
from the unit box succeeds on the first trial with fuel 1. -/
theorem unit_sphere_spec_witness :
    sphere_rejection (fun _ => Vec3.random_in_unit_box 0 0 0) 1
      = some (Vec3.new 0 0 0) ∧
    (Vec3.new 0 0 0).length_squared < 1 := by
  have h : sphere_rejection (fun i => Vec3.random_in_unit_box 0 0 0) 1
      = some (Vec3.new 0 0 0) := by
    rw [sphere_rejection]
    norm_num [Vec3.random_in_unit_box, Vec3.length_squared, Vec3.new]
  exact ⟨h,
    (unit_sphere_spec (fun _ => 0) (fun _ => 0) (fun _ => 0) 1 (Vec3.new 0 0 0)
      (fun i => by norm_num) h).1⟩

/-- IEEE-style `f64` scalar for the claims about non-finite results:
a finite value is carried exactly as a real number (rounding is not
modelled; signed zero is collapsed to `fin 0`, which behaves as IEEE
`+0.0`), plus the two infinities and NaN. -/
inductive F where
  | fin : ℝ → F
  | pinf : F
  | ninf : F
  | nan : F

/-- An `F` value is finite when it carries a real number. -/
def F.isFinite : F → Bool
  | .fin _ => true
  | _ => false

/-- IEEE `f64` addition on `F` (exact on finite values). -/
def F.add : F → F → F
  | .nan, _ => .nan
  | _, .nan => .nan
  | .fin a, .fin b => .fin (a + b)
  | .fin _, .pinf => .pinf
  | .pinf, .fin _ => .pinf
  | .fin _, .ninf => .ninf
  | .ninf, .fin _ => .ninf
  | .pinf, .pinf => .pinf
  | .ninf, .ninf => .ninf
  | .pinf, .ninf => .nan
  | .ninf, .pinf => .nan

/-- IEEE `f64` multiplication on `F` (exact on finite values;
zero times an infinity is NaN). -/
noncomputable def F.mul : F → F → F
  | .nan, _ => .nan
  | _, .nan => .nan
  | .fin a, .fin b => .fin (a * b)
  | .fin a, .pinf => if 0 < a then .pinf else if a < 0 then .ninf else .nan
  | .pinf, .fin a => if 0 < a then .pinf else if a < 0 then .ninf else .nan
  | .fin a, .ninf => if 0 < a then .ninf else if a < 0 then .pinf else .nan
  | .ninf, .fin a => if 0 < a then .ninf else if a < 0 then .pinf else .nan
  | .pinf, .pinf => .pinf
  | .pinf, .ninf => .ninf
  | .ninf, .pinf => .ninf
  | .ninf, .ninf => .pinf

/-- IEEE `f64` division on `F` (exact on finite values; a nonzero finite
value divided by zero is a signed infinity, zero divided by zero is NaN). -/
noncomputable def F.div : F → F → F
  | .nan, _ => .nan
  | _, .nan => .nan
  | .fin a, .fin b =>
    if b = 0 then (if a = 0 then .nan else if 0 < a then .pinf else .ninf)
    else .fin (a / b)
  | .fin _, .pinf => .fin 0
  | .fin _, .ninf => .fin 0
  | .pinf, .fin b => if 0 ≤ b then .pinf else .ninf
  | .ninf, .fin b => if 0 ≤ b then .ninf else .pinf
  | .pinf, _ => .nan
  | .ninf, _ => .nan

/-- IEEE `f64` square root on `F` (exact on finite values; NaN on
negative inputs). -/
noncomputable def F.sqrt : F → F
  | .fin a => if a < 0 then .nan else .fin (Real.sqrt a)
  | .pinf => .pinf
  | _ => .nan

/-- Vector with `F` components, for evaluating the source through IEEE
special-value semantics. -/
structure FVec3 where
  x : F
  y : F
  z : F

/-- Translated from `impl Mul<f64> for &Vec3`, evaluated in `F` arithmetic. -/
noncomputable def FVec3.mulScalar (v : FVec3) (s : F) : FVec3 :=
  ⟨v.x.mul s, v.y.mul s, v.z.mul s⟩

/-- Translated from `impl Div<f64> for &Vec3` (`self * (1.0 / rhs)`), evaluated in `F`
arithmetic. -/
noncomputable def FVec3.divScalar (v : FVec3) (s : F) : FVec3 :=
  v.mulScalar (F.div (.fin 1) s)

/-- Translated from `Vec3::length_squared` (`z*z + (x*x + y*y)`), evaluated in `F`
arithmetic. -/
noncomputable def FVec3.length_squared (v : FVec3) : F :=
  (v.z.mul v.z).add ((v.x.mul v.x).add (v.y.mul v.y))

/-- Translated from `Vec3::length`, evaluated in `F` arithmetic. -/
noncomputable def FVec3.length (v : FVec3) : F := v.length_squared.sqrt

/-- Translated from `Vec3::unit` (`self / self.length()`), evaluated in `F` arithmetic. -/
noncomputable def FVec3.unit (v : FVec3) : FVec3 := v.divScalar v.length

/-- Embed an exact real vector into `F` components. -/
def Vec3.toF (v : Vec3) : FVec3 := ⟨.fin v.x, .fin v.y, .fin v.z⟩

/-- The `F` evaluation of `length_squared` on finite components agrees
with the exact real value. -/
theorem toF_length_squared (v : Vec3) :
    v.toF.length_squared = F.fin v.length_squared := by
  simp [Vec3.toF, FVec3.length_squared, F.mul, F.add, Vec3.length_squared]

/-- A sum of squares is never negative. -/
theorem length_squared_nonneg (v : Vec3) : 0 ≤ v.length_squared := by
  rw [Vec3.length_squared]
  exact add_nonneg (mul_self_nonneg _) (add_nonneg (mul_self_nonneg _) (mul_self_nonneg _))

/-- The `F` evaluation of `length` on finite components agrees with the
exact real value (the radicand, a sum of squares, is never negative). -/
theorem toF_length (v : Vec3) : v.toF.length = F.fin v.length := by
  rw [FVec3.length, toF_length_squared, Vec3.length]
  simp [F.sqrt, (length_squared_nonneg v).not_lt]

/-- C9: `unit()` divides by `length()` with no guard: on the zero vector
(length 0) it does not fail but yields a vector all of whose components
are non-finite under IEEE semantics, while on every vector of nonzero
finite length it returns exactly the scalar division of the vector by
that length. -/
theorem unit_ieee (v : Vec3) :
    (v = Vec3.new 0 0 0 →
      v.toF.unit.x.isFinite = false ∧ v.toF.unit.y.isFinite = false ∧
        v.toF.unit.z.isFinite = false) ∧
    (v.length ≠ 0 → v.toF.unit = (v.divScalar v.length).toF) := by
  constructor
  · intro hv
    subst hv
    simp [Vec3.toF, FVec3.unit, FVec3.divScalar, FVec3.mulScalar, FVec3.length,
      FVec3.length_squared, F.mul, F.add, F.sqrt, F.div, F.isFinite, Vec3.new]
  · intro h
    rw [FVec3.unit, toF_length]
    have h1 : F.div (.fin 1) (.fin v.length) = .fin (1 / v.length) := by
      simp [F.div, h]
    simp [FVec3.divScalar, FVec3.mulScalar, h1, Vec3.toF, Vec3.divScalar,
      Vec3.mulScalar, Vec3.new, F.mul]

/-- Witness for C9 at the zero vector and at `v = (1, 0, 0)`
(length 1). -/
theorem unit_ieee_witness :
    (Vec3.new 0 0 0).toF.unit.x.isFinite = false ∧
    (Vec3.new 1 0 0).length ≠ 0 ∧
    (Vec3.new 1 0 0).toF.unit
      = ((Vec3.new 1 0 0).divScalar (Vec3.new 1 0 0).length).toF := by
  have h : (Vec3.new 1 0 0).length ≠ 0 := by
    simp [Vec3.length, Vec3.length_squared, Vec3.new]
  exact ⟨((unit_ieee (Vec3.new 0 0 0)).1 rfl).1, h, (unit_ieee (Vec3.new 1 0 0)).2 h⟩

/-- Modelled from the spec: `Ray` (prelude, not under src/) is an origin,
a direction (not required to be normalized), and a scalar time value. -/
structure Ray where
  origin : Vec3
  direction : Vec3
  time : ℝ

/-- Modelled from the spec: `Ray::new(origin, direction, time)` packs the
three fields. -/
def Ray.new (origin direction : Vec3) (time : ℝ) : Ray := ⟨origin, direction, time⟩

/-- Modelled from the spec: `d2r` (prelude, not under src/) converts the
field of view from degrees to radians. -/
noncomputable def d2r (deg : ℝ) : ℝ := deg * Real.pi / 180

/-- Translated from `camera.rs`: `pub struct Camera`. -/
structure Camera where
  origin : Vec3
  lb : Vec3
  horizontal_full : Vec3
  vertical_full : Vec3
  horizontal_unit : Vec3
  vertical_unit : Vec3
  aspect_ratio : ℝ
  aperture : ℝ
  shutter_speed : ℝ

/-- Translated from `Camera::new`: viewport size from the field of view,
orthonormal basis from `look_from`/`look_at`/`vup`, focus rectangle
scaled by `focus_distance`, lower-left corner `lb`. -/
noncomputable def Camera.new (look_from look_at vup : Vec3)
    (fov ar ap focus_distance ss : ℝ) : Camera :=
  let fovr := d2r fov
  let h := Real.tan (fovr / 2)
  let vh := 2 * h
  let vw := vh * ar
  let w := (look_at - look_from).unit
  let horizontal_unit := (w.cross vup).unit
  let vertical_unit := (horizontal_unit.cross w).unit
  let horizontal_full := horizontal_unit.mulScalar (focus_distance * vw)
  let vertical_full := vertical_unit.mulScalar (focus_distance * vh)
  let lb := look_from - horizontal_full.divScalar 2 - vertical_full.divScalar 2
    + w.mulScalar focus_distance
  { origin := look_from
    lb := lb
    horizontal_full := horizontal_full
    vertical_full := vertical_full
    horizontal_unit := horizontal_unit
    vertical_unit := vertical_unit
    aspect_ratio := ar
    aperture := ap
    shutter_speed := ss }

/-- Translated from `Camera::ray(u, v)`: the unit-disk sample `p`
(`Vec3::random_unit_disk()`) and the standard-normal draw `n`
(`Random::normal()`) are passed explicitly.
`rd = aperture/2 * p`; `offset = horizontal_unit*rd.x + vertical_unit*rd.y`;
`origin = camera.origin + offset`;
`direction = lb + u*horizontal_full + v*vertical_full - origin`;
`time = shutter_speed * n`. -/
noncomputable def Camera.ray (c : Camera) (u v : ℝ) (p : Vec3) (n : ℝ) : Ray :=
  let rd := p.mulScalar (c.aperture / 2)
  let offset := c.horizontal_unit.mulScalar rd.x + c.vertical_unit.mulScalar rd.y
  let origin := c.origin + offset
  let direction := c.lb + c.horizontal_full.mulScalar u + c.vertical_full.mulScalar v
    - origin
  Ray.new origin direction (c.shutter_speed * n)

/-- Two vectors are equal exactly when all three components agree. -/
theorem Vec3.eq_iff (a b : Vec3) : a = b ↔ a.x = b.x ∧ a.y = b.y ∧ a.z = b.z := by
  constructor
  · intro h
    exact ⟨congrArg Vec3.x h, congrArg Vec3.y h, congrArg Vec3.z h⟩
  · intro ⟨hx, hy, hz⟩
    cases a
    cases b
    simp_all

/-- Componentwise description of vector addition. -/
theorem Vec3.add_def (a b : Vec3) :
    a + b = Vec3.new (a.x + b.x) (a.y + b.y) (a.z + b.z) := rfl

/-- Componentwise description of vector subtraction. -/
theorem Vec3.sub_def (a b : Vec3) :
    a - b = Vec3.new (a.x - b.x) (a.y - b.y) (a.z - b.z) := rfl

/-- Helper: for any camera whose stored aperture is zero, the lens offset
vanishes and the generated ray starts at the stored origin. -/
theorem ray_origin_of_aperture_zero (c : Camera) (hc : c.aperture = 0)
    (u v : ℝ) (p : Vec3) (n : ℝ) : (c.ray u v p n).origin = c.origin := by
  rw [Vec3.eq_iff]
  simp only [Camera.ray, Ray.new, hc, Vec3.mulScalar, Vec3.new, Vec3.add_def]
  refine ⟨by ring, by ring, by ring⟩

/-- C2: a camera built with `aperture = 0` produces rays whose origin is
exactly the camera's stored origin, for any image-plane coordinates
`u`, `v`, any unit-disk sample `p` and any normal draw `n`. -/
theorem aperture_zero_ray_origin (look_from look_at vup : Vec3)
    (fov ar focus_distance ss u v : ℝ) (p : Vec3) (n : ℝ) :
    ((Camera.new look_from look_at vup fov ar 0 focus_distance ss).ray u v p n).origin
      = (Camera.new look_from look_at vup fov ar 0 focus_distance ss).origin :=
  ray_origin_of_aperture_zero _ rfl u v p n

/-- C5: a camera built with `shutter_speed = 0` produces rays whose time
value is exactly 0, for any `u`, `v`, any unit-disk sample `p` and any
normal draw `n`. -/
theorem shutter_zero_ray_time (look_from look_at vup : Vec3)
    (fov ar ap focus_distance u v : ℝ) (p : Vec3) (n : ℝ) :
    ((Camera.new look_from look_at vup fov ar ap focus_distance 0).ray u v p n).time
      = 0 := by
  show (0 : ℝ) * n = 0
  exact zero_mul n

/-- Modelled from the spec: `Color` (prelude, not under src/) is a
triplet of displayable RGB channel values; channels are modelled as
exact reals. -/
structure Color where
  r : ℝ
  g : ℝ
  b : ℝ

/-- Modelled from the spec: `Color::newf` constructs a color from three
floating-point channel values. -/
def Color.newf (r g b : ℝ) : Color := ⟨r, g, b⟩

/-- Modelled from the spec: `Color::default()` is black (all channels
zero). -/
def Color.default : Color := Color.newf 0 0 0

/-- Modelled from the spec: `Color::gradient(rhs, t)` linearly
interpolates `(1−t)·self + t·rhs` per channel. -/
def Color.gradient (c1 c2 : Color) (t : ℝ) : Color :=
  Color.newf ((1 - t) * c1.r + t * c2.r) ((1 - t) * c1.g + t * c2.g)
    ((1 - t) * c1.b + t * c2.b)

/-- Modelled from the spec: `Color * Color` (prelude, not under src/) is
the componentwise color multiply used for attenuation. -/
def Color.mul (a b : Color) : Color := Color.newf (a.r * b.r) (a.g * b.g) (a.b * b.b)

/-- Modelled from the spec: the result of `Material::scatter` — an
attenuation color and an outgoing scattered ray. -/
structure ScatterRecord where
  color : Color
  ray : Ray

/-- Modelled from the spec: a hit record as the integrator consumes it —
its material's scatter response with this hit already applied, as a
function of the incoming ray (absorption is `none`). The geometric
fields (point, normal, distance) are not read by the integrator. -/
structure HitRecord where
  scatter : Ray → Option ScatterRecord

/-- Modelled from `std::ops::Range<f64>`: the half-open distance range
passed to `World::hit`; endpoints are extended reals so that
`f64::INFINITY` is representable. -/
structure FRange where
  lo : EReal
  hi : EReal

/-- Translated from `f64::INFINITY`. -/
def INFINITY : EReal := ⊤

/-- Modelled from the spec: `World` (geometry, not under src/) is
consumed only through its `hit(ray, distance_range)` query, abstracted
as a function returning the nearest intersection or nothing. -/
abbrev World := Ray → FRange → Option HitRecord

/-- Translated from `TakePhotoSettings::background`:
`t = 0.5 * (unit(direction).y + 1)`, blend of white into light blue. -/
noncomputable def background (ray : Ray) : Color :=
  (Color.newf 1 1 1).gradient (Color.newf 0.5 0.7 1)
    (0.5 * (ray.direction.unit.y + 1))

/-- Translated from `TakePhotoSettings::ray_color(ray, world, depth)`:
depth 0 returns the default color; otherwise query
`world.hit(ray, 0.001..INFINITY)`; on a hit, scatter (absorption gives
the default color, otherwise attenuate the recursive color); with no
hit, return `background(ray)`. -/
noncomputable def ray_color (ray : Ray) (world : World) (depth : ℕ) : Color :=
  match depth with
  | 0 => Color.default
  | d + 1 =>
    match world ray ⟨((0.001 : ℝ) : EReal), INFINITY⟩ with
    | some hit =>
      match hit.scatter ray with
      | some scattered => Color.mul scattered.color (ray_color scattered.ray world d)
      | none => Color.default
    | none => background ray

/-- C3: `ray_color` at depth 0 returns black (the default color),
whatever the ray and the world. -/
theorem ray_color_depth_zero (ray : Ray) (world : World) :
    ray_color ray world 0 = Color.default ∧ Color.default = Color.newf 0 0 0 :=
  ⟨rfl, rfl⟩

/-- C4: against a world whose hit query over the distance range
`0.001..INFINITY` reports no intersection for the ray, `ray_color` at
any positive depth returns exactly `background(ray)`, the white-to-blue
gradient indexed by `t = 0.5 * (unit(direction).y + 1)`. -/
theorem ray_color_no_hit (ray : Ray) (world : World) (depth : ℕ)
    (hw : world ray ⟨((0.001 : ℝ) : EReal), INFINITY⟩ = none) (hd : 0 < depth) :
    ray_color ray world depth = background ray ∧
    background ray = (Color.newf 1 1 1).gradient (Color.newf 0.5 0.7 1)
      (0.5 * (ray.direction.unit.y + 1)) := by
  refine ⟨?_, rfl⟩
  obtain ⟨d, rfl⟩ : ∃ d, depth = d + 1 :=
    ⟨depth - 1, (Nat.succ_pred_eq_of_pos hd).symm⟩
  rw [ray_color, hw]

/-- Witness for C4: the empty world (never any hit) at depth 1 on a
concrete ray. -/
theorem ray_color_no_hit_witness :
    ray_color (Ray.new (Vec3.new 0 0 0) (Vec3.new 0 0 1) 0) (fun _ _ => none) 1
      = background (Ray.new (Vec3.new 0 0 0) (Vec3.new 0 0 1) 0) :=
  (ray_color_no_hit (Ray.new (Vec3.new 0 0 0) (Vec3.new 0 0 1) 0)
    (fun _ _ => none) 1 rfl Nat.one_pos).1

end Remda
